import Mathlib

/-!
Verification of the Disaster-Agent dispatch core against its design document.

This file gives a shallow embedding in Lean 4 of the dispatch core of the
`sam-project` repository:

* the inventory ledger (`modules/resource_tools/inventory.py`),
* the allocation engine (`modules/resource_tools/allocator.py`),
* the priority queue
  (`src/main_orchestrator/services/priority_queue_service.py`),
* the team dispatcher (`src/rescue_agent/team_tools.py`).

Python dictionaries keyed by strings are embedded as association lists
(dict keys are unique, which is carried as a `Nodup` hypothesis where it
matters); Python `int` is embedded as `Int` (arbitrary precision, so no
overflow modelling is needed); results that carry a `success` flag and an
optional error message are embedded as small inductive result types whose
constructors mirror the distinct outcomes of the source.  Timestamps only
matter through their relative order, so they are embedded as `Nat`
parameters supplied by the caller.  The floating-point ETA pipeline of
`team_tools.py` is embedded over `ℚ`.
-/

namespace DisasterAgent

/-! ## Inventory ledger (`modules/resource_tools/inventory.py`)

The ledger is the dict `_inventory : Dict[str, {"total", "reserved",
"threshold"}]`, embedded as an association list from item name to an
`ItemData` record. -/

/-- One entry of the `_inventory` dict: `{"total": .., "reserved": ..,
"threshold": ..}`. -/
structure ItemData where
  total : Int
  reserved : Int
  threshold : Int
deriving Repr, DecidableEq

/-- The `_inventory` dict, as an association list (Python dict keys are
unique; order is insertion order). -/
abbrev Inventory := List (String × ItemData)

/-- The `INITIAL_INVENTORY` table from `inventory.py`. -/
def INITIAL_INVENTORY : Inventory :=
  [("stretcher", ⟨15, 0, 5⟩),
   ("first_aid_kit", ⟨30, 0, 10⟩),
   ("defibrillator", ⟨5, 0, 2⟩),
   ("oxygen_tank", ⟨10, 0, 3⟩),
   ("splints", ⟨20, 0, 5⟩),
   ("pediatric_kit", ⟨5, 0, 2⟩),
   ("wheelchair_stretcher", ⟨3, 0, 1⟩),
   ("hydraulic_cutter", ⟨4, 0, 2⟩),
   ("concrete_saw", ⟨3, 0, 1⟩),
   ("airbag_lifter", ⟨2, 0, 1⟩),
   ("flashlight", ⟨50, 0, 15⟩),
   ("radio", ⟨30, 0, 10⟩),
   ("rope", ⟨20, 0, 5⟩),
   ("ladder", ⟨8, 0, 3⟩),
   ("fire_extinguisher", ⟨25, 0, 8⟩),
   ("breathing_apparatus", ⟨12, 0, 4⟩),
   ("thermal_camera", ⟨3, 0, 1⟩),
   ("life_jacket", ⟨40, 0, 15⟩),
   ("inflatable_boat", ⟨4, 0, 2⟩),
   ("water_pump", ⟨6, 0, 2⟩)]

/-- Python `str.lower()` for the item-name normalization the source
applies on every call (embedded over the character list so that the
kernel can evaluate it; `String.toLower` itself does not reduce). -/
def pyLower (s : String) : String := ⟨s.data.map Char.toLower⟩

/-- Dict lookup `_inventory[item]` (`none` when the key is absent). -/
def findItem (inv : Inventory) (name : String) : Option ItemData :=
  (inv.find? (fun p => p.1 == name)).map Prod.snd

/-- Dict update `_inventory[item] = f(_inventory[item])`: rewrite the
entry whose key matches (keys are unique in a dict, so mapping over all
matches coincides with updating the one binding). -/
def updateItem (inv : Inventory) (name : String) (f : ItemData → ItemData) :
    Inventory :=
  inv.map (fun p => if p.1 == name then (p.1, f p.2) else p)

/-- Embeds `_calculate_item_status` (`//` is Python floor division, hence
`Int.fdiv`). -/
def calculate_item_status (d : ItemData) : String :=
  let available := d.total - d.reserved
  if available ≤ 0 then "out"
  else if available ≤ d.threshold.fdiv 2 then "critical"
  else if available ≤ d.threshold then "low"
  else "ok"

/-- The `ITEM_STATUS` dict returned by `get_item_status`. -/
structure ItemStatus where
  available : Int
  total : Int
  reserved : Int
  threshold : Int
  status : String
deriving Repr, DecidableEq

/-- Embeds `get_item_status`; `none` embeds the
`{"error": "Item ... not found"}` return. -/
def get_item_status (inv : Inventory) (item_name : String) :
    Option ItemStatus :=
  let item_name := pyLower item_name
  (findItem inv item_name).map fun d =>
    { available := d.total - d.reserved
      total := d.total
      reserved := d.reserved
      threshold := d.threshold
      status := calculate_item_status d }

/-- Result of `reserve_items`: the three distinct outcomes of the returned
dict (`success: False` with a not-found error, `success: False` with an
insufficient-stock error carrying `available`, or `success: True` with
`reserved` and `available_after`). -/
inductive ReserveResult where
  | notFound
  | insufficientStock (available : Int)
  | ok (reserved : Int) (available_after : Int)
deriving Repr, DecidableEq

/-- Embeds `reserve_items`, returning the result together with the updated
inventory state. -/
def reserve_items (inv : Inventory) (item_name : String) (quantity : Int) :
    ReserveResult × Inventory :=
  let item_name := pyLower item_name
  match findItem inv item_name with
  | none => (.notFound, inv)
  | some item_data =>
    let available := item_data.total - item_data.reserved
    if quantity > available then
      (.insufficientStock available, inv)
    else
      let inv' := updateItem inv item_name
        (fun d => { d with reserved := d.reserved + quantity })
      (.ok quantity (item_data.total - (item_data.reserved + quantity)), inv')

/-- Result of `release_items`: not-found error, or success carrying
`released` (the clamped amount) and `available_after`. -/
inductive ReleaseResult where
  | notFound
  | ok (released : Int) (available_after : Int)
deriving Repr, DecidableEq

/-- Embeds `release_items`: clamps to `min quantity reserved`, never fails
on a known item. -/
def release_items (inv : Inventory) (item_name : String) (quantity : Int) :
    ReleaseResult × Inventory :=
  let item_name := pyLower item_name
  match findItem inv item_name with
  | none => (.notFound, inv)
  | some item_data =>
    let actual_release := min quantity item_data.reserved
    let inv' := updateItem inv item_name
      (fun d => { d with reserved := d.reserved - actual_release })
    (.ok actual_release
      (item_data.total - (item_data.reserved - actual_release)), inv')

/-- The design's ledger invariant for one item: `0 ≤ reserved ≤ total`. -/
def wfItem (d : ItemData) : Prop := 0 ≤ d.reserved ∧ d.reserved ≤ d.total

instance (d : ItemData) : Decidable (wfItem d) := by
  unfold wfItem; infer_instance

/-- The ledger invariant for the whole inventory. -/
def wfInv (inv : Inventory) : Prop := ∀ p ∈ inv, wfItem p.2

instance (inv : Inventory) : Decidable (wfInv inv) := by
  unfold wfInv; infer_instance

/-- Keys of a dict are unique (true of every Python dict; preserved by all
ledger operations, which never add keys). -/
def NodupKeys (inv : Inventory) : Prop := (inv.map Prod.fst).Nodup

instance (inv : Inventory) : Decidable (NodupKeys inv) := by
  unfold NodupKeys; infer_instance

/-- One external ledger call, for stating properties of call sequences. -/
inductive LedgerOp where
  | reserve (name : String) (qty : Int)
  | release (name : String) (qty : Int)
deriving Repr, DecidableEq

/-- The quantity argument of a ledger call. -/
def LedgerOp.qty : LedgerOp → Int
  | .reserve _ q => q
  | .release _ q => q

/-- State effect of one ledger call. -/
def applyOp (inv : Inventory) : LedgerOp → Inventory
  | .reserve n q => (reserve_items inv n q).2
  | .release n q => (release_items inv n q).2

/-- State effect of a sequence of ledger calls. -/
def runOps (inv : Inventory) (ops : List LedgerOp) : Inventory :=
  ops.foldl applyOp inv

/-! ### Basic ledger lemmas -/

theorem keys_updateItem (inv : Inventory) (name : String)
    (f : ItemData → ItemData) :
    (updateItem inv name f).map Prod.fst = inv.map Prod.fst := by
  unfold updateItem
  rw [List.map_map]
  apply List.map_congr_left
  intro p _
  by_cases h : p.1 = name <;> simp [h]

theorem nodupKeys_updateItem (inv : Inventory) (name : String)
    (f : ItemData → ItemData) (h : NodupKeys inv) :
    NodupKeys (updateItem inv name f) := by
  unfold NodupKeys
  rw [keys_updateItem]
  exact h

/-- With unique keys, any entry whose key matches is the entry the dict
lookup returns. -/
theorem findItem_eq_of_mem :
    ∀ (inv : Inventory), NodupKeys inv →
      ∀ p ∈ inv, ∀ name, p.1 = name → findItem inv name = some p.2 := by
  intro inv
  induction inv with
  | nil =>
    intro _ p hp
    cases hp
  | cons q rest ih =>
    intro hn p hp name hkey
    rcases List.mem_cons.mp hp with hp | hp
    · subst hp
      unfold findItem
      simp [hkey]
    · have hq : ¬(q.1 == name) = true := by
        intro hcontra
        have hqname : q.1 = name := by simpa using hcontra
        have hmem : p.1 ∈ rest.map Prod.fst := List.mem_map_of_mem _ hp
        unfold NodupKeys at hn
        simp only [List.map_cons, List.nodup_cons] at hn
        rw [hkey, ← hqname] at hmem
        exact hn.1 hmem
      have hn' : NodupKeys rest := by
        unfold NodupKeys at hn ⊢
        simp only [List.map_cons, List.nodup_cons] at hn
        exact hn.2
      unfold findItem at ih ⊢
      simp only [List.find?_cons, hq]
      exact ih hn' p hp name hkey

/-! ### Unfolding descriptions of the two ledger mutators -/

theorem reserve_items_notFound (inv : Inventory) (name : String) (qty : Int)
    (h : findItem inv (pyLower name) = none) :
    reserve_items inv name qty = (.notFound, inv) := by
  simp only [reserve_items, h]

theorem reserve_items_insufficient (inv : Inventory) (name : String)
    (qty : Int) (d : ItemData) (h : findItem inv (pyLower name) = some d)
    (hgt : qty > d.total - d.reserved) :
    reserve_items inv name qty =
      (.insufficientStock (d.total - d.reserved), inv) := by
  simp only [reserve_items, h]
  rw [if_pos hgt]

theorem reserve_items_success (inv : Inventory) (name : String)
    (qty : Int) (d : ItemData) (h : findItem inv (pyLower name) = some d)
    (hle : qty ≤ d.total - d.reserved) :
    reserve_items inv name qty =
      (.ok qty (d.total - (d.reserved + qty)),
       updateItem inv (pyLower name)
         (fun d => { d with reserved := d.reserved + qty })) := by
  simp only [reserve_items, h]
  rw [if_neg (not_lt.mpr hle)]

theorem release_items_notFound (inv : Inventory) (name : String) (qty : Int)
    (h : findItem inv (pyLower name) = none) :
    release_items inv name qty = (.notFound, inv) := by
  simp only [release_items, h]

theorem release_items_found (inv : Inventory) (name : String)
    (qty : Int) (d : ItemData) (h : findItem inv (pyLower name) = some d) :
    release_items inv name qty =
      (.ok (min qty d.reserved)
        (d.total - (d.reserved - min qty d.reserved)),
       updateItem inv (pyLower name)
         (fun e => { e with reserved := e.reserved - min qty d.reserved })) := by
  simp only [release_items, h]

theorem wfInv_updateItem (inv : Inventory) (name : String)
    (f : ItemData → ItemData) (hw : wfInv inv)
    (hf : ∀ p ∈ inv, p.1 = name → wfItem (f p.2)) :
    wfInv (updateItem inv name f) := by
  intro p hp
  simp only [updateItem, List.mem_map] at hp
  obtain ⟨q, hq, hpq⟩ := hp
  by_cases h : q.1 == name
  · simp only [h, if_true] at hpq
    subst hpq
    exact hf q hq (by simpa using h)
  · simp only [h, Bool.false_eq_true, if_false] at hpq
    subst hpq
    exact hw q hq

theorem wfInv_reserve (inv : Inventory) (name : String) (qty : Int)
    (hn : NodupKeys inv) (hw : wfInv inv) (hq : 0 ≤ qty) :
    wfInv (reserve_items inv name qty).2 := by
  cases hfind : findItem inv (pyLower name) with
  | none => rw [reserve_items_notFound inv name qty hfind]; exact hw
  | some d =>
    by_cases hgt : qty > d.total - d.reserved
    · rw [reserve_items_insufficient inv name qty d hfind hgt]
      exact hw
    · rw [reserve_items_success inv name qty d hfind (not_lt.mp hgt)]
      dsimp only
      refine wfInv_updateItem _ _ _ hw ?_
      intro p hp hkey
      have hwf := hw p hp
      have hfirst : findItem inv (pyLower name) = some p.2 :=
        findItem_eq_of_mem inv hn p hp _ hkey
      rw [hfind] at hfirst
      have hd : d = p.2 := by injection hfirst
      subst hd
      obtain ⟨h1, h2⟩ := hwf
      constructor <;> (dsimp only [wfItem]; omega)

theorem wfInv_release (inv : Inventory) (name : String) (qty : Int)
    (hn : NodupKeys inv) (hw : wfInv inv) (hq : 0 ≤ qty) :
    wfInv (release_items inv name qty).2 := by
  cases hfind : findItem inv (pyLower name) with
  | none => rw [release_items_notFound inv name qty hfind]; exact hw
  | some d =>
    rw [release_items_found inv name qty d hfind]
    dsimp only
    refine wfInv_updateItem _ _ _ hw ?_
    intro p hp hkey
    have hfirst : findItem inv (pyLower name) = some p.2 :=
      findItem_eq_of_mem inv hn p hp _ hkey
    rw [hfind] at hfirst
    have hd : d = p.2 := by injection hfirst
    subst hd
    obtain ⟨h1, h2⟩ := hw p hp
    have hmin1 : min qty p.2.reserved ≤ p.2.reserved := min_le_right _ _
    have hmin0 : 0 ≤ min qty p.2.reserved := le_min hq h1
    constructor <;> (dsimp only [wfItem]; omega)

theorem nodupKeys_reserve (inv : Inventory) (name : String) (qty : Int)
    (hn : NodupKeys inv) : NodupKeys (reserve_items inv name qty).2 := by
  cases hfind : findItem inv (pyLower name) with
  | none => rw [reserve_items_notFound inv name qty hfind]; exact hn
  | some d =>
    by_cases hgt : qty > d.total - d.reserved
    · rw [reserve_items_insufficient inv name qty d hfind hgt]; exact hn
    · rw [reserve_items_success inv name qty d hfind (not_lt.mp hgt)]
      dsimp only
      exact nodupKeys_updateItem _ _ _ hn

theorem nodupKeys_release (inv : Inventory) (name : String) (qty : Int)
    (hn : NodupKeys inv) : NodupKeys (release_items inv name qty).2 := by
  cases hfind : findItem inv (pyLower name) with
  | none => rw [release_items_notFound inv name qty hfind]; exact hn
  | some d =>
    rw [release_items_found inv name qty d hfind]
    dsimp only
    exact nodupKeys_updateItem _ _ _ hn

theorem wf_runOps (inv : Inventory) (ops : List LedgerOp)
    (hn : NodupKeys inv) (hw : wfInv inv)
    (hq : ∀ op ∈ ops, 0 ≤ op.qty) :
    NodupKeys (runOps inv ops) ∧ wfInv (runOps inv ops) := by
  induction ops generalizing inv with
  | nil => exact ⟨hn, hw⟩
  | cons op rest ih =>
    have hq0 : 0 ≤ op.qty := hq op (List.mem_cons_self _ _)
    have hqrest : ∀ o ∈ rest, 0 ≤ o.qty := fun o ho =>
      hq o (List.mem_cons_of_mem _ ho)
    have hstep : NodupKeys (applyOp inv op) ∧ wfInv (applyOp inv op) := by
      cases op with
      | reserve n q =>
        exact ⟨nodupKeys_reserve inv n q hn,
               wfInv_reserve inv n q hn hw hq0⟩
      | release n q =>
        exact ⟨nodupKeys_release inv n q hn,
               wfInv_release inv n q hn hw hq0⟩
    exact ih (applyOp inv op) hstep.1 hstep.2 hqrest

/-! ### Claim C1 -/

/-- Claim C1, as stated, is false: `reserve_items` does not validate its
quantity, so a single call with quantity `-1` drives `reserved` below `0`.
This refutes the claim at the concrete call sequence
`[reserve_items("stretcher", -1)]` from the initial inventory. -/
theorem C1_counterexample :
    ¬ ∀ p ∈ runOps INITIAL_INVENTORY [LedgerOp.reserve "stretcher" (-1)],
        0 ≤ p.2.reserved ∧ p.2.reserved ≤ p.2.total := by
  decide

/-- Claim C1 (amended: quantities restricted to nonnegative integers).
For every equipment item, after any sequence of `reserve_items` and
`release_items` calls with any item names and any nonnegative integer
quantities, the item's reserved count satisfies `0 ≤ reserved ≤ total`,
and every status read reports `available = total - reserved`. -/
theorem C1_ledger_invariant (inv : Inventory) (ops : List LedgerOp)
    (hn : NodupKeys inv) (hw : wfInv inv)
    (hq : ∀ op ∈ ops, 0 ≤ op.qty) :
    (∀ p ∈ runOps inv ops, 0 ≤ p.2.reserved ∧ p.2.reserved ≤ p.2.total) ∧
    (∀ name st, get_item_status (runOps inv ops) name = some st →
      st.available = st.total - st.reserved) := by
  refine ⟨(wf_runOps inv ops hn hw hq).2, ?_⟩
  intro name st h
  simp only [get_item_status] at h
  obtain ⟨d, hd, rfl⟩ := Option.map_eq_some'.mp h
  rfl

/-- Witness for C1: the amended theorem evaluated on the initial inventory
and the concrete call sequence reserve 5 stretchers then release 3. -/
theorem C1_ledger_invariant_witness :
    (∀ p ∈ runOps INITIAL_INVENTORY
        [LedgerOp.reserve "stretcher" 5, LedgerOp.release "stretcher" 3],
      0 ≤ p.2.reserved ∧ p.2.reserved ≤ p.2.total) ∧
    (∀ name st,
      get_item_status
        (runOps INITIAL_INVENTORY
          [LedgerOp.reserve "stretcher" 5, LedgerOp.release "stretcher" 3])
        name = some st →
      st.available = st.total - st.reserved) :=
  C1_ledger_invariant INITIAL_INVENTORY
    [LedgerOp.reserve "stretcher" 5, LedgerOp.release "stretcher" 3]
    (by decide) (by decide) (by decide)

/-! ## Allocation engine (`modules/resource_tools/allocator.py`) -/

/-- One element of the `equipment_list` argument of `allocate_resources`:
`{"item": str, "quantity": int, "priority": str}`. -/
structure EquipmentRequest where
  item : String
  quantity : Int
  priority : String
deriving Repr, DecidableEq

/-- One element of `equipment_assigned` / `items_returned`:
`{"item": str, "quantity": int}`. -/
structure AssignedItem where
  item : String
  quantity : Int
deriving Repr, DecidableEq

/-- One element of `shortfall`:
`{"item": str, "quantity": int, "reason": str}`. -/
structure ShortfallItem where
  item : String
  quantity : Int
  reason : String
deriving Repr, DecidableEq

/-- The `TEAM_NAMES` pool from `allocator.py`. -/
def TEAM_NAMES : List String :=
  ["Alpha", "Bravo", "Charlie", "Delta", "Echo", "Foxtrot"]

/-- Embeds `_get_next_team_id` for a given value of `_next_team_index`
(the index is part of the allocator state and increments on every use). -/
def get_next_team_id (next_team_index : Nat) : String :=
  "T-" ++ TEAM_NAMES[next_team_index % TEAM_NAMES.length]!

/-- The record stored in `_active_allocations[mission_id]`
(the `allocated_at` timestamp is plumbing and is not modelled). -/
structure AllocationRecord where
  request_id : String
  mission_id : String
  team_id : String
  equipment_assigned : List AssignedItem
deriving Repr, DecidableEq

/-- The `_active_allocations` dict, as an association list. -/
abbrev AllocationTable := List (String × AllocationRecord)

/-- Dict lookup `_active_allocations.get(mission_id)`. -/
def lookupAlloc (t : AllocationTable) (k : String) : Option AllocationRecord :=
  (t.find? (fun p => p.1 == k)).map Prod.snd

/-- Dict assignment `_active_allocations[mission_id] = record`: replaces
an existing binding, otherwise appends (dict insertion order). -/
def insertAlloc (t : AllocationTable) (k : String) (v : AllocationRecord) :
    AllocationTable :=
  if t.any (fun p => p.1 == k) then
    t.map (fun p => if p.1 == k then (k, v) else p)
  else t ++ [(k, v)]

/-- Dict deletion `del _active_allocations[mission_id]`. -/
def eraseAlloc (t : AllocationTable) (k : String) : AllocationTable :=
  t.filter (fun p => !(p.1 == k))

/-- The global mutable state of `allocator.py`: the inventory it drives,
the `_active_allocations` table and `_next_team_index`. -/
structure AllocatorState where
  inventory : Inventory
  allocations : AllocationTable
  next_team_index : Nat
deriving Repr, DecidableEq

/-- The body of the `for item_request in equipment_list` loop of
`allocate_resources`: threading the inventory and the two result lists. -/
def allocStep (acc : Inventory × List AssignedItem × List ShortfallItem)
    (item_request : EquipmentRequest) :
    Inventory × List AssignedItem × List ShortfallItem :=
  let (inv, equipment_assigned, shortfall) := acc
  let item_name := pyLower item_request.item
  let requested_qty := item_request.quantity
  match get_item_status inv item_name with
  | none =>
    (inv, equipment_assigned,
     shortfall ++ [⟨item_name, requested_qty, "item_not_found"⟩])
  | some status =>
    let available := status.available
    if available ≥ requested_qty then
      let (result, inv') := reserve_items inv item_name requested_qty
      match result with
      | .ok _ _ =>
        (inv', equipment_assigned ++ [⟨item_name, requested_qty⟩], shortfall)
      | _ => (inv', equipment_assigned, shortfall)
    else if available > 0 then
      let (result, inv') := reserve_items inv item_name available
      match result with
      | .ok _ _ =>
        (inv', equipment_assigned ++ [⟨item_name, available⟩],
         shortfall ++
           [⟨item_name, requested_qty - available, "insufficient_stock"⟩])
      | _ =>
        (inv', equipment_assigned,
         shortfall ++
           [⟨item_name, requested_qty - available, "insufficient_stock"⟩])
    else
      (inv, equipment_assigned,
       shortfall ++ [⟨item_name, requested_qty, "out_of_stock"⟩])

/-- The `ALLOCATION_RESPONSE` dict returned by `allocate_resources`
(without the `allocated_at` timestamp). -/
structure AllocationResponse where
  request_id : String
  mission_id : String
  allocated : Bool
  team_id : String
  equipment_assigned : List AssignedItem
  shortfall : List ShortfallItem
deriving Repr, DecidableEq

/-- Embeds `allocate_resources`, returning the response together with the
updated allocator state. -/
def allocate_resources (s : AllocatorState) (request_id mission_id : String)
    (equipment_list : List EquipmentRequest) (team_id? : Option String) :
    AllocationResponse × AllocatorState :=
  let (team_id, next_index) :=
    match team_id? with
    | none => (get_next_team_id s.next_team_index, s.next_team_index + 1)
    | some t => (t, s.next_team_index)
  let (inv', equipment_assigned, shortfall) :=
    equipment_list.foldl allocStep (s.inventory, [], [])
  let allocated := equipment_assigned.length > 0
  let record : AllocationRecord :=
    ⟨request_id, mission_id, team_id, equipment_assigned⟩
  (⟨request_id, mission_id, allocated, team_id, equipment_assigned, shortfall⟩,
   ⟨inv', insertAlloc s.allocations mission_id record, next_index⟩)

/-- The dict returned by `release_resources`. -/
structure ReleaseResponse where
  mission_id : String
  released : Bool
  items_returned : List AssignedItem
deriving Repr, DecidableEq

/-- The body of the `for item in allocation["equipment_assigned"]` loop of
`release_resources`. -/
def releaseStep (acc : Inventory × List AssignedItem) (item : AssignedItem) :
    Inventory × List AssignedItem :=
  let (result, inv') := release_items acc.1 item.item item.quantity
  match result with
  | .ok released _ => (inv', acc.2 ++ [⟨item.item, released⟩])
  | .notFound => (inv', acc.2)

/-- Embeds `release_resources`, returning the response together with the
updated allocator state. -/
def release_resources (s : AllocatorState) (mission_id : String) :
    ReleaseResponse × AllocatorState :=
  match lookupAlloc s.allocations mission_id with
  | none => (⟨mission_id, false, []⟩, s)
  | some alloc =>
    let (inv', items_returned) :=
      alloc.equipment_assigned.foldl releaseStep (s.inventory, [])
    (⟨mission_id, true, items_returned⟩,
     ⟨inv', eraseAlloc s.allocations mission_id, s.next_team_index⟩)

/-! ### Allocation-table dict lemmas -/

theorem lookupAlloc_insertAlloc :
    ∀ (t : AllocationTable) (k : String) (v : AllocationRecord),
      lookupAlloc (insertAlloc t k v) k = some v := by
  intro t k v
  induction t with
  | nil => simp [insertAlloc, lookupAlloc]
  | cons p rest ih =>
    by_cases hpk : p.1 = k
    · simp [insertAlloc, lookupAlloc, hpk]
    · have hpkb : (p.1 == k) = false := by simpa using hpk
      have hstep : insertAlloc (p :: rest) k v =
          p :: insertAlloc rest k v := by
        cases hany : rest.any (fun q => q.1 == k) with
        | true => simp [insertAlloc, hpkb, hpk, hany]
        | false => simp [insertAlloc, hpkb, hpk, hany]
      rw [hstep]
      simpa [lookupAlloc, List.find?_cons, hpkb] using ih

theorem lookupAlloc_eraseAlloc (t : AllocationTable) (k : String) :
    lookupAlloc (eraseAlloc t k) k = none := by
  unfold lookupAlloc eraseAlloc
  rw [Option.map_eq_none', List.find?_eq_none]
  intro p hp
  have := (List.mem_filter.mp hp).2
  simpa using this

/-! ### Claim C6 -/

/-- Claim C6 (confirmed).  The ledger `reserve_items` fails with the
not-found error when the item is unknown and with the insufficient-stock
error when the quantity exceeds `available`, leaving the inventory
unchanged in both failure cases; `release_items` on a known item never
fails: it releases exactly `min quantity reserved` (decrementing
`reserved` by that clamped amount) and reports the clamped amount. -/
theorem C6_ledger_error_contract (inv : Inventory) (name : String)
    (qty : Int) :
    (findItem inv (pyLower name) = none →
      reserve_items inv name qty = (.notFound, inv) ∧
      release_items inv name qty = (.notFound, inv)) ∧
    (∀ d, findItem inv (pyLower name) = some d →
      (qty > d.total - d.reserved →
        reserve_items inv name qty =
          (.insufficientStock (d.total - d.reserved), inv)) ∧
      release_items inv name qty =
        (.ok (min qty d.reserved)
           (d.total - (d.reserved - min qty d.reserved)),
         updateItem inv (pyLower name)
           (fun e => { e with reserved := e.reserved - min qty d.reserved }))) := by
  constructor
  · intro h
    exact ⟨reserve_items_notFound inv name qty h,
           release_items_notFound inv name qty h⟩
  · intro d hd
    exact ⟨fun hgt => reserve_items_insufficient inv name qty d hd hgt,
           release_items_found inv name qty d hd⟩

/-- Witness for C6: evaluated on the initial inventory: an unknown item
fails the not-found way, and over-releasing 3 stretchers when 0 are
reserved releases the clamped amount 0. -/
theorem C6_ledger_error_contract_witness :
    reserve_items INITIAL_INVENTORY "unknown_item" 1 =
      (.notFound, INITIAL_INVENTORY) ∧
    release_items INITIAL_INVENTORY "stretcher" 3 =
      (.ok (min 3 0) (15 - (0 - min 3 0)),
       updateItem INITIAL_INVENTORY (pyLower "stretcher")
         (fun e => { e with reserved := e.reserved - min 3 0 })) := by
  constructor
  · exact ((C6_ledger_error_contract INITIAL_INVENTORY "unknown_item" 1).1
      (by decide)).1
  · exact ((C6_ledger_error_contract INITIAL_INVENTORY "stretcher" 3).2
      ⟨15, 0, 5⟩ (by decide)).2

/-! ### Claim C7 -/

/-- Claim C7 (confirmed).  The allocation engine's `release_resources`
returns the not-found result (`released = False`, no state change) when
the mission has no recorded allocation; on success it runs each recorded
item/quantity pair through the ledger's `release_items`, deletes the
record, and a second release of the same mission then returns the
not-found result rather than an error. -/
theorem C7_release_contract (s : AllocatorState) (mission_id : String) :
    (lookupAlloc s.allocations mission_id = none →
      release_resources s mission_id = (⟨mission_id, false, []⟩, s)) ∧
    (∀ rec, lookupAlloc s.allocations mission_id = some rec →
      (release_resources s mission_id).1.released = true ∧
      (release_resources s mission_id).2.inventory =
        (rec.equipment_assigned.foldl releaseStep (s.inventory, [])).1 ∧
      (release_resources s mission_id).2.allocations =
        eraseAlloc s.allocations mission_id ∧
      release_resources (release_resources s mission_id).2 mission_id =
        (⟨mission_id, false, []⟩, (release_resources s mission_id).2)) := by
  constructor
  · intro h
    simp [release_resources, h]
  · intro rec hrec
    have hrel : release_resources s mission_id =
        (⟨mission_id, true,
           (rec.equipment_assigned.foldl releaseStep (s.inventory, [])).2⟩,
         ⟨(rec.equipment_assigned.foldl releaseStep (s.inventory, [])).1,
          eraseAlloc s.allocations mission_id, s.next_team_index⟩) := by
      simp [release_resources, hrec]
    refine ⟨by rw [hrel], by rw [hrel], by rw [hrel], ?_⟩
    rw [hrel]
    simp [release_resources, lookupAlloc_eraseAlloc]

/-- Witness for C7: releasing a mission that was never allocated, from the
empty allocator state, returns the not-found result. -/
theorem C7_release_contract_witness :
    release_resources ⟨INITIAL_INVENTORY, [], 0⟩ "M-INVALID" =
      (⟨"M-INVALID", false, []⟩, ⟨INITIAL_INVENTORY, [], 0⟩) :=
  (C7_release_contract ⟨INITIAL_INVENTORY, [], 0⟩ "M-INVALID").1 (by decide)

/-! ### Claim C10 -/

/-- Claim C10 (confirmed).  `allocate_resources` stores an allocation
record under the mission id even when nothing could be reserved
(`equipment_assigned` empty, `allocated = False`), so a subsequent
`release_resources` of that mission returns `released = True` with an
empty `items_returned` list instead of the not-found result. -/
theorem C10_empty_allocation_release (s : AllocatorState)
    (request_id mission_id : String)
    (equipment_list : List EquipmentRequest) (team_id? : Option String)
    (hempty : (allocate_resources s request_id mission_id equipment_list
        team_id?).1.equipment_assigned = []) :
    (allocate_resources s request_id mission_id equipment_list
        team_id?).1.allocated = false ∧
    lookupAlloc (allocate_resources s request_id mission_id equipment_list
        team_id?).2.allocations mission_id =
      some ⟨request_id, mission_id,
            (allocate_resources s request_id mission_id equipment_list
              team_id?).1.team_id, []⟩ ∧
    release_resources (allocate_resources s request_id mission_id
        equipment_list team_id?).2 mission_id =
      (⟨mission_id, true, []⟩,
       ⟨(allocate_resources s request_id mission_id equipment_list
           team_id?).2.inventory,
        eraseAlloc (allocate_resources s request_id mission_id equipment_list
           team_id?).2.allocations mission_id,
        (allocate_resources s request_id mission_id equipment_list
           team_id?).2.next_team_index⟩) := by
  have hassigned :
      (equipment_list.foldl allocStep (s.inventory, [], [])).2.1 = [] := by
    simpa [allocate_resources] using hempty
  have hresp :
      (allocate_resources s request_id mission_id equipment_list
        team_id?).1.equipment_assigned = [] := hempty
  have hlook : lookupAlloc (allocate_resources s request_id mission_id
      equipment_list team_id?).2.allocations mission_id =
      some ⟨request_id, mission_id,
            (allocate_resources s request_id mission_id equipment_list
              team_id?).1.team_id, []⟩ := by
    simp only [allocate_resources]
    rw [hassigned]
    exact lookupAlloc_insertAlloc s.allocations mission_id _
  refine ⟨?_, hlook, ?_⟩
  · simp [allocate_resources, hassigned]
  · simp [release_resources, hlook]

/-- Witness for C10: allocating only an unknown item from the initial
state reserves nothing but still stores a record, and releasing that
mission succeeds with an empty returned list. -/
theorem C10_empty_allocation_release_witness :
    (allocate_resources ⟨INITIAL_INVENTORY, [], 0⟩ "REQ-1" "M-1"
        [⟨"unobtainium", 1, "required"⟩] none).1.allocated = false ∧
    lookupAlloc (allocate_resources ⟨INITIAL_INVENTORY, [], 0⟩ "REQ-1" "M-1"
        [⟨"unobtainium", 1, "required"⟩] none).2.allocations "M-1" =
      some ⟨"REQ-1", "M-1",
            (allocate_resources ⟨INITIAL_INVENTORY, [], 0⟩ "REQ-1" "M-1"
              [⟨"unobtainium", 1, "required"⟩] none).1.team_id, []⟩ ∧
    release_resources (allocate_resources ⟨INITIAL_INVENTORY, [], 0⟩ "REQ-1"
        "M-1" [⟨"unobtainium", 1, "required"⟩] none).2 "M-1" =
      (⟨"M-1", true, []⟩,
       ⟨(allocate_resources ⟨INITIAL_INVENTORY, [], 0⟩ "REQ-1" "M-1"
           [⟨"unobtainium", 1, "required"⟩] none).2.inventory,
        eraseAlloc (allocate_resources ⟨INITIAL_INVENTORY, [], 0⟩ "REQ-1"
           "M-1" [⟨"unobtainium", 1, "required"⟩] none).2.allocations "M-1",
        (allocate_resources ⟨INITIAL_INVENTORY, [], 0⟩ "REQ-1" "M-1"
           [⟨"unobtainium", 1, "required"⟩] none).2.next_team_index⟩) :=
  C10_empty_allocation_release ⟨INITIAL_INVENTORY, [], 0⟩ "REQ-1" "M-1"
    [⟨"unobtainium", 1, "required"⟩] none (by decide)

/-! ### Claim C2 -/

/-- Claim C2 (confirmed, for positive requested quantities — the claim's
four cases partition the outcomes exactly when `qty > 0`).  Per requested
item, in order: an unknown item goes to `shortfall` with reason
`item_not_found` and nothing is reserved; if `available ≥ qty` the full
`qty` is reserved and appended to `equipment_assigned`; if
`0 < available < qty` exactly `available` is reserved and appended, and
the remainder goes to `shortfall` with reason `insufficient_stock`; if
`available = 0` the item goes to `shortfall` with reason `out_of_stock`
and nothing is reserved.  The response's `allocated` flag is true iff
`equipment_assigned` is non-empty. -/
theorem C2_allocate_cases :
    (∀ (inv : Inventory) (assigned : List AssignedItem)
        (short : List ShortfallItem) (req : EquipmentRequest),
      0 < req.quantity →
      (get_item_status inv (pyLower req.item) = none →
        allocStep (inv, assigned, short) req =
          (inv, assigned,
           short ++ [⟨pyLower req.item, req.quantity, "item_not_found"⟩])) ∧
      (∀ st, get_item_status inv (pyLower req.item) = some st →
        (st.available ≥ req.quantity →
          allocStep (inv, assigned, short) req =
            ((reserve_items inv (pyLower req.item) req.quantity).2,
             assigned ++ [⟨pyLower req.item, req.quantity⟩], short) ∧
          (reserve_items inv (pyLower req.item) req.quantity).1 =
            .ok req.quantity (st.available - req.quantity)) ∧
        (0 < st.available → st.available < req.quantity →
          allocStep (inv, assigned, short) req =
            ((reserve_items inv (pyLower req.item) st.available).2,
             assigned ++ [⟨pyLower req.item, st.available⟩],
             short ++ [⟨pyLower req.item, req.quantity - st.available,
                        "insufficient_stock"⟩]) ∧
          (reserve_items inv (pyLower req.item) st.available).1 =
            .ok st.available 0) ∧
        (st.available = 0 →
          allocStep (inv, assigned, short) req =
            (inv, assigned,
             short ++ [⟨pyLower req.item, req.quantity, "out_of_stock"⟩])))) ∧
    (∀ (s : AllocatorState) (request_id mission_id : String)
        (equipment_list : List EquipmentRequest) (team_id? : Option String),
      ((allocate_resources s request_id mission_id equipment_list
          team_id?).1.allocated = true ↔
        (allocate_resources s request_id mission_id equipment_list
          team_id?).1.equipment_assigned ≠ [])) := by
  constructor
  · intro inv assigned short req hq
    refine ⟨?_, ?_⟩
    · intro hnone
      simp [allocStep, hnone]
    · intro st hst
      obtain ⟨d, hd, hstd⟩ :=
        Option.map_eq_some'.mp (by simpa [get_item_status] using hst)
      have havail : st.available = d.total - d.reserved := by
        rw [← hstd]
      refine ⟨?_, ?_, ?_⟩
      · intro hge
        have hres := reserve_items_success inv (pyLower req.item)
          req.quantity d hd (by omega)
        constructor
        · simp only [allocStep, hst, ge_iff_le, hq]
          rw [if_pos (by exact hge)]
          rw [hres]
        · rw [hres]
          simp only
          congr 1
          omega
      · intro hpos hlt
        have hres := reserve_items_success inv (pyLower req.item)
          st.available d hd (by omega)
        have hstep : allocStep (inv, assigned, short) req =
            ((reserve_items inv (pyLower req.item) st.available).2,
             assigned ++ [⟨pyLower req.item, st.available⟩],
             short ++ [⟨pyLower req.item, req.quantity - st.available,
                        "insufficient_stock"⟩]) := by
          simp only [allocStep, hst]
          rw [if_neg (by omega), if_pos (by exact hpos)]
          rw [hres]
        refine ⟨hstep, ?_⟩
        rw [hres]
        simp only
        congr 1
        omega
      · intro hzero
        simp only [allocStep, hst]
        rw [if_neg (by omega), if_neg (by omega)]
  · intro s request_id mission_id equipment_list team_id?
    simp only [allocate_resources, gt_iff_lt, decide_eq_true_eq]
    rw [List.length_pos]

/-- Witness for C2: the full-allocation case evaluated on the initial
inventory with a request for 3 stretchers (15 available). -/
theorem C2_allocate_cases_witness :
    allocStep (INITIAL_INVENTORY, [], []) ⟨"stretcher", 3, "required"⟩ =
      ((reserve_items INITIAL_INVENTORY (pyLower "stretcher") 3).2,
       [⟨pyLower "stretcher", 3⟩], []) ∧
    (reserve_items INITIAL_INVENTORY (pyLower "stretcher") 3).1 =
      .ok 3 (15 - 3) :=
  ((C2_allocate_cases.1 INITIAL_INVENTORY [] [] ⟨"stretcher", 3, "required"⟩
      (by decide)).2 ⟨15, 15, 0, 5, "ok"⟩ (by decide)).1 (by decide)

/-! ### Pointwise accounting of reservations

Every inventory mutation of the allocator is `updateItem` adding a delta
to `reserved` of one key.  `adjust` describes such mutations pointwise,
and `sumQ` totals the quantities a recorded assignment list carries for a
given ledger key (ledger keys are the lowercased item names). -/

/-- Add `g key` to the reserved count of every entry (proof device). -/
def adjust (g : String → Int) (inv : Inventory) : Inventory :=
  inv.map (fun p => (p.1, { p.2 with reserved := p.2.reserved + g p.1 }))

/-- Total quantity an assignment list records against ledger key `k`. -/
def sumQ (xs : List AssignedItem) (k : String) : Int :=
  (xs.map (fun x => if pyLower x.item == k then x.quantity else 0)).sum

theorem sumQ_nil (k : String) : sumQ [] k = 0 := rfl

theorem sumQ_cons (x : AssignedItem) (xs : List AssignedItem) (k : String) :
    sumQ (x :: xs) k =
      (if pyLower x.item == k then x.quantity else 0) + sumQ xs k := by
  simp [sumQ]

theorem sumQ_nonneg (xs : List AssignedItem) (k : String)
    (hq : ∀ x ∈ xs, 0 ≤ x.quantity) : 0 ≤ sumQ xs k := by
  induction xs with
  | nil => simp [sumQ_nil]
  | cons x rest ih =>
    rw [sumQ_cons]
    have hx := hq x (List.mem_cons_self _ _)
    have hrest : 0 ≤ sumQ rest k :=
      ih (fun y hy => hq y (List.mem_cons_of_mem _ hy))
    by_cases h : (pyLower x.item == k) = true <;> simp [h] <;> omega

theorem adjust_congr (g g' : String → Int) (inv : Inventory)
    (h : ∀ p ∈ inv, g p.1 = g' p.1) : adjust g inv = adjust g' inv := by
  unfold adjust
  apply List.map_congr_left
  intro p hp
  rw [h p hp]

theorem adjust_zero (inv : Inventory) : adjust (fun _ => 0) inv = inv := by
  unfold adjust
  have : ∀ p : String × ItemData,
      (p.1, { p.2 with reserved := p.2.reserved + 0 }) = p := by
    intro p
    cases p with
    | mk a b => cases b; simp
  simp only [this]
  exact List.map_id _

theorem adjust_adjust (g h : String → Int) (inv : Inventory) :
    adjust g (adjust h inv) = adjust (fun k => h k + g k) inv := by
  unfold adjust
  rw [List.map_map]
  apply List.map_congr_left
  intro p _
  simp [Int.add_assoc]

theorem updateItem_add_eq_adjust (inv : Inventory) (key : String) (q : Int) :
    updateItem inv key (fun d => { d with reserved := d.reserved + q }) =
      adjust (fun k => if k == key then q else 0) inv := by
  unfold updateItem adjust
  apply List.map_congr_left
  intro p _
  by_cases h : p.1 = key
  · simp [h]
  · have hb : (p.1 == key) = false := by simpa using h
    simp [hb]

theorem updateItem_sub_eq_adjust (inv : Inventory) (key : String) (q : Int) :
    updateItem inv key (fun d => { d with reserved := d.reserved - q }) =
      adjust (fun k => if k == key then -q else 0) inv := by
  have := updateItem_add_eq_adjust inv key (-q)
  simpa [sub_eq_add_neg] using this

theorem findItem_adjust (g : String → Int) (inv : Inventory) (k : String) :
    findItem (adjust g inv) k =
      (findItem inv k).map
        (fun d => { d with reserved := d.reserved + g k }) := by
  induction inv with
  | nil => rfl
  | cons p rest ih =>
    by_cases h : p.1 = k
    · simp [findItem, adjust, List.find?_cons, h]
    · have hb : (p.1 == k) = false := by simpa using h
      simpa [findItem, adjust, List.find?_cons, hb] using ih

/-- Effect of the allocation loop on the inventory: it extends
`equipment_assigned` by some list `delta` of reservations (each with
positive quantity when all requested quantities are positive), extends
`shortfall`, and adds exactly `sumQ delta` to each ledger key's reserved
count. -/
theorem allocate_effect :
    ∀ (reqs : List EquipmentRequest), (∀ r ∈ reqs, 0 < r.quantity) →
      ∀ (inv : Inventory) (assigned : List AssignedItem)
        (short : List ShortfallItem),
      ∃ (delta : List AssignedItem) (shorts : List ShortfallItem),
        reqs.foldl allocStep (inv, assigned, short) =
          (adjust (sumQ delta) inv, assigned ++ delta, short ++ shorts) ∧
        ∀ x ∈ delta, 0 < x.quantity := by
  intro reqs
  induction reqs with
  | nil =>
    intro _ inv assigned short
    refine ⟨[], [], ?_, by intro x hx; cases hx⟩
    have h0 : adjust (sumQ []) inv = inv := by
      rw [adjust_congr (sumQ []) (fun _ => 0) inv (fun p _ => sumQ_nil p.1)]
      exact adjust_zero inv
    simp [h0]
  | cons req rest ih =>
    intro hq inv assigned short
    have hq0 : 0 < req.quantity := hq req (List.mem_cons_self _ _)
    have hqrest : ∀ r ∈ rest, 0 < r.quantity := fun r hr =>
      hq r (List.mem_cons_of_mem _ hr)
    -- case analysis on the first step, as in C2
    cases hst : get_item_status inv (pyLower req.item) with
    | none =>
      have hstep : allocStep (inv, assigned, short) req =
          (inv, assigned,
           short ++ [⟨pyLower req.item, req.quantity, "item_not_found"⟩]) :=
        ((C2_allocate_cases.1 inv assigned short req hq0).1) hst
      obtain ⟨delta, shorts, hrun, hpos⟩ := ih hqrest inv assigned
        (short ++ [⟨pyLower req.item, req.quantity, "item_not_found"⟩])
      refine ⟨delta, ⟨pyLower req.item, req.quantity, "item_not_found"⟩ ::
        shorts, ?_, hpos⟩
      rw [List.foldl_cons, hstep, hrun]
      simp
    | some st =>
      have hcase := (C2_allocate_cases.1 inv assigned short req hq0).2 st hst
      obtain ⟨d, hd, hstd⟩ :=
        Option.map_eq_some'.mp (by simpa [get_item_status] using hst)
      have havail : st.available = d.total - d.reserved := by rw [← hstd]
      by_cases hge : st.available ≥ req.quantity
      · -- full allocation of req.quantity
        obtain ⟨hstep, _⟩ := hcase.1 hge
        have hres := reserve_items_success inv (pyLower req.item)
          req.quantity d hd (by omega)
        have hinv1 : (reserve_items inv (pyLower req.item) req.quantity).2 =
            adjust (fun k => if k == pyLower (pyLower req.item)
              then req.quantity else 0) inv := by
          rw [hres]
          exact updateItem_add_eq_adjust inv (pyLower (pyLower req.item))
            req.quantity
        obtain ⟨delta, shorts, hrun, hpos⟩ := ih hqrest
          ((reserve_items inv (pyLower req.item) req.quantity).2)
          (assigned ++ [⟨pyLower req.item, req.quantity⟩]) short
        refine ⟨⟨pyLower req.item, req.quantity⟩ :: delta, shorts, ?_, ?_⟩
        · rw [List.foldl_cons, hstep, hrun, hinv1, adjust_adjust]
          have hfun : adjust (fun k =>
              (if k == pyLower (pyLower req.item) then req.quantity else 0) +
                sumQ delta k) inv =
              adjust (sumQ (⟨pyLower req.item, req.quantity⟩ :: delta)) inv := by
            apply adjust_congr
            intro p _
            rw [sumQ_cons]
            by_cases h : p.1 = pyLower (pyLower req.item)
            · have h1 : (p.1 == pyLower (pyLower req.item)) = true := by
                simpa using h
              have h2 : (pyLower (AssignedItem.mk (pyLower req.item)
                  req.quantity).item == p.1) = true := by
                simpa using h.symm
              simp only [h1, h2, if_true]
            · have h1 : (p.1 == pyLower (pyLower req.item)) = false := by
                simpa using h
              have h2 : (pyLower (AssignedItem.mk (pyLower req.item)
                  req.quantity).item == p.1) = false := by
                simpa using fun he => h he.symm
              simp only [h1, h2, if_false, Int.zero_add]
          rw [hfun]
          simp
        · intro x hx
          rcases List.mem_cons.mp hx with hx | hx
          · subst hx; exact hq0
          · exact hpos x hx
      · by_cases hpos0 : 0 < st.available
        · -- partial allocation of st.available
          obtain ⟨hstep, _⟩ := hcase.2.1 hpos0 (by omega)
          have hres := reserve_items_success inv (pyLower req.item)
            st.available d hd (by omega)
          have hinv1 : (reserve_items inv (pyLower req.item) st.available).2 =
              adjust (fun k => if k == pyLower (pyLower req.item)
                then st.available else 0) inv := by
            rw [hres]
            exact updateItem_add_eq_adjust inv (pyLower (pyLower req.item))
              st.available
          obtain ⟨delta, shorts, hrun, hposd⟩ := ih hqrest
            ((reserve_items inv (pyLower req.item) st.available).2)
            (assigned ++ [⟨pyLower req.item, st.available⟩])
            (short ++ [⟨pyLower req.item, req.quantity - st.available,
                       "insufficient_stock"⟩])
          refine ⟨⟨pyLower req.item, st.available⟩ :: delta,
            ⟨pyLower req.item, req.quantity - st.available,
             "insufficient_stock"⟩ :: shorts, ?_, ?_⟩
          · rw [List.foldl_cons, hstep, hrun, hinv1, adjust_adjust]
            have hfun : adjust (fun k =>
                (if k == pyLower (pyLower req.item) then st.available else 0) +
                  sumQ delta k) inv =
                adjust (sumQ (⟨pyLower req.item, st.available⟩ :: delta))
                  inv := by
              apply adjust_congr
              intro p _
              rw [sumQ_cons]
              by_cases h : p.1 = pyLower (pyLower req.item)
              · have h1 : (p.1 == pyLower (pyLower req.item)) = true := by
                  simpa using h
                have h2 : (pyLower (AssignedItem.mk (pyLower req.item)
                    st.available).item == p.1) = true := by
                  simpa using h.symm
                simp only [h1, h2, if_true]
              · have h1 : (p.1 == pyLower (pyLower req.item)) = false := by
                  simpa using h
                have h2 : (pyLower (AssignedItem.mk (pyLower req.item)
                    st.available).item == p.1) = false := by
                  simpa using fun he => h he.symm
                simp only [h1, h2, if_false, Int.zero_add]
            rw [hfun]
            simp
          · intro x hx
            rcases List.mem_cons.mp hx with hx | hx
            · subst hx; exact hpos0
            · exact hposd x hx
        · -- nothing available (the loop's final else-branch)
          have hstep : allocStep (inv, assigned, short) req =
              (inv, assigned,
               short ++ [⟨pyLower req.item, req.quantity,
                          "out_of_stock"⟩]) := by
            simp only [allocStep, hst]
            rw [if_neg (by omega), if_neg (by omega)]
          obtain ⟨delta, shorts, hrun, hposd⟩ := ih hqrest inv assigned
            (short ++ [⟨pyLower req.item, req.quantity, "out_of_stock"⟩])
          refine ⟨delta, ⟨pyLower req.item, req.quantity, "out_of_stock"⟩ ::
            shorts, ?_, hposd⟩
          rw [List.foldl_cons, hstep, hrun]
          simp

theorem beq_true_of_eq {a b : String} (h : a = b) : (a == b) = true := by
  simpa using h

theorem beq_false_of_ne {a b : String} (h : a ≠ b) : (a == b) = false :=
  beq_eq_false_iff_ne.mpr h

/-- Effect of the release loop on the inventory: when every recorded
quantity is nonnegative and no key's recorded total exceeds its reserved
count, the loop subtracts exactly `sumQ xs` from each key (no clamping
occurs). -/
theorem release_effect :
    ∀ (xs : List AssignedItem) (inv : Inventory) (acc : List AssignedItem),
      (∀ x ∈ xs, 0 ≤ x.quantity) →
      (∀ p ∈ inv, sumQ xs p.1 ≤ p.2.reserved) →
      (xs.foldl releaseStep (inv, acc)).1 =
        adjust (fun k => -(sumQ xs k)) inv := by
  intro xs
  induction xs with
  | nil =>
    intro inv acc _ _
    have h0 : adjust (fun k => -(sumQ [] k)) inv = inv := by
      rw [adjust_congr _ (fun _ => 0) inv
        (fun p _ => by rw [sumQ_nil]; ring)]
      exact adjust_zero inv
    simpa using h0.symm
  | cons x rest ih =>
    intro inv acc hq hge
    have hq0 : 0 ≤ x.quantity := hq x (List.mem_cons_self _ _)
    have hqrest : ∀ y ∈ rest, 0 ≤ y.quantity := fun y hy =>
      hq y (List.mem_cons_of_mem _ hy)
    cases hfind : findItem inv (pyLower x.item) with
    | none =>
      have hnokey : ∀ p ∈ inv, (p.1 == pyLower x.item) = false := by
        intro p hp
        have hfind' := Option.map_eq_none'.mp hfind
        have := List.find?_eq_none.mp hfind' p hp
        simpa using this
      have hsum : ∀ p ∈ inv, sumQ (x :: rest) p.1 = sumQ rest p.1 := by
        intro p hp
        rw [sumQ_cons]
        have h1 : (pyLower x.item == p.1) = false :=
          beq_false_of_ne (fun he =>
            (beq_eq_false_iff_ne.mp (hnokey p hp)) he.symm)
        simp [h1]
      have hstep : releaseStep (inv, acc) x = (inv, acc) := by
        simp only [releaseStep]
        rw [release_items_notFound inv x.item x.quantity hfind]
      rw [List.foldl_cons, hstep,
        ih inv acc hqrest (fun p hp => by rw [← hsum p hp]; exact hge p hp)]
      exact adjust_congr _ _ inv (fun p hp => by rw [hsum p hp])
    | some d =>
      obtain ⟨q0, hq0mem, hq0d⟩ := Option.map_eq_some'.mp hfind
      have hq0key : q0.1 = pyLower x.item := by
        have := List.find?_some hq0mem
        simpa using this
      have hq0mem' : q0 ∈ inv := List.mem_of_find?_eq_some hq0mem
      have hrestnn : 0 ≤ sumQ rest (pyLower x.item) :=
        sumQ_nonneg rest _ hqrest
      have hkeysum : sumQ (x :: rest) (pyLower x.item) =
          x.quantity + sumQ rest (pyLower x.item) := by
        rw [sumQ_cons]
        simp
      have hle : x.quantity ≤ d.reserved := by
        have hthis := hge q0 hq0mem'
        rw [hq0key, hkeysum] at hthis
        rw [← hq0d]
        omega
      have hmin : min x.quantity d.reserved = x.quantity :=
        min_eq_left hle
      have hstep : releaseStep (inv, acc) x =
          (adjust (fun k => if k == pyLower x.item then -x.quantity else 0)
             inv,
           acc ++ [⟨x.item, x.quantity⟩]) := by
        simp only [releaseStep]
        rw [release_items_found inv x.item x.quantity d hfind]
        rw [hmin, updateItem_sub_eq_adjust]
      have hge' : ∀ p ∈ adjust
          (fun k => if k == pyLower x.item then -x.quantity else 0) inv,
          sumQ rest p.1 ≤ p.2.reserved := by
        intro p hp
        simp only [adjust, List.mem_map] at hp
        obtain ⟨q, hqmem, hqp⟩ := hp
        subst hqp
        have hgeq := hge q hqmem
        by_cases h : q.1 = pyLower x.item
        · have hb : (q.1 == pyLower x.item) = true := by simpa using h
          have hsq : sumQ (x :: rest) q.1 =
              x.quantity + sumQ rest q.1 := by
            rw [h, hkeysum]
          simp only [hb, Bool.true_eq_false, if_true]
          omega
        · have hb : (q.1 == pyLower x.item) = false := by simpa using h
          have hsq : sumQ (x :: rest) q.1 = sumQ rest q.1 := by
            rw [sumQ_cons]
            have h1 : (pyLower x.item == q.1) = false :=
              beq_false_of_ne (fun he => h he.symm)
            simp [h1]
          simp only [hb, Bool.false_eq_true, if_false]
          omega
      rw [List.foldl_cons, hstep, ih _ _ hqrest hge', adjust_adjust]
      apply adjust_congr
      intro p hp
      rw [sumQ_cons]
      by_cases h : p.1 = pyLower x.item
      · have hb : (p.1 == pyLower x.item) = true := beq_true_of_eq h
        have h1 : (pyLower x.item == p.1) = true := beq_true_of_eq h.symm
        simp only [hb, h1, if_true]
        ring
      · have hb : (p.1 == pyLower x.item) = false := beq_false_of_ne h
        have h1 : (pyLower x.item == p.1) = false :=
          beq_false_of_ne (fun he => h he.symm)
        simp only [hb, h1, Bool.false_eq_true, if_false]
        ring

/-! ### Claim C3 -/

/-- Claim C3 (confirmed).  Allocating for a mission and then releasing
that same mission — with no interleaving operation — restores every
item's ledger entry, and hence every `available` count, to its value
before the allocation.  Hypotheses: the inventory satisfies the ledger
invariant and all requested quantities are positive. -/
theorem C3_allocate_release_round_trip (s : AllocatorState)
    (request_id mission_id : String) (equipment_list : List EquipmentRequest)
    (team_id? : Option String) (hw : wfInv s.inventory)
    (hq : ∀ r ∈ equipment_list, 0 < r.quantity) :
    (release_resources (allocate_resources s request_id mission_id
        equipment_list team_id?).2 mission_id).2.inventory = s.inventory ∧
    ∀ name,
      get_item_status (release_resources (allocate_resources s request_id
        mission_id equipment_list team_id?).2 mission_id).2.inventory name =
      get_item_status s.inventory name := by
  obtain ⟨delta, shorts, hrun, hpos⟩ :=
    allocate_effect equipment_list hq s.inventory [] []
  have hinv1 : (allocate_resources s request_id mission_id equipment_list
      team_id?).2.inventory = adjust (sumQ delta) s.inventory := by
    simp only [allocate_resources]
    rw [hrun]
  have hlook : lookupAlloc (allocate_resources s request_id mission_id
      equipment_list team_id?).2.allocations mission_id =
      some ⟨request_id, mission_id,
        (allocate_resources s request_id mission_id equipment_list
          team_id?).1.team_id, delta⟩ := by
    simp only [allocate_resources]
    rw [hrun]
    simpa using lookupAlloc_insertAlloc s.allocations mission_id _
  have hge : ∀ p ∈ adjust (sumQ delta) s.inventory,
      sumQ delta p.1 ≤ p.2.reserved := by
    intro p hp
    simp only [adjust, List.mem_map] at hp
    obtain ⟨q, hqmem, rfl⟩ := hp
    have := (hw q hqmem).1
    dsimp only
    omega
  have hrel := release_effect delta (adjust (sumQ delta) s.inventory) []
    (fun x hx => le_of_lt (hpos x hx)) hge
  have hfinal : (release_resources (allocate_resources s request_id
      mission_id equipment_list team_id?).2 mission_id).2.inventory =
      s.inventory := by
    simp only [release_resources, hlook]
    rw [hinv1, hrel, adjust_adjust]
    exact (adjust_congr _ _ _ (fun p _ => by ring)).trans
      (adjust_zero s.inventory)
  exact ⟨hfinal, fun name => by rw [hfinal]⟩

/-- Witness for C3: allocate 3 stretchers for mission M-1 from the
initial state, release M-1, and the inventory is back to the initial
table. -/
theorem C3_allocate_release_round_trip_witness :
    (release_resources (allocate_resources ⟨INITIAL_INVENTORY, [], 0⟩
        "REQ-1" "M-1" [⟨"stretcher", 3, "required"⟩] none).2
        "M-1").2.inventory = INITIAL_INVENTORY ∧
    ∀ name,
      get_item_status (release_resources (allocate_resources
        ⟨INITIAL_INVENTORY, [], 0⟩ "REQ-1" "M-1"
        [⟨"stretcher", 3, "required"⟩] none).2 "M-1").2.inventory name =
      get_item_status INITIAL_INVENTORY name :=
  C3_allocate_release_round_trip ⟨INITIAL_INVENTORY, [], 0⟩ "REQ-1" "M-1"
    [⟨"stretcher", 3, "required"⟩] none (by decide) (by decide)

/-! ### Claim C5 -/

/-- Claim C5 (confirmed).  A second `allocate_resources` call with the
same mission id overwrites the stored allocation record with the new
allocation, while the ledger's reserved counts from the first allocation
stay in place: no item's reserved count decreases (the second call only
adds its own nonnegative reservations), i.e. the prior reservations are
never released by the overwrite. -/
theorem C5_overwrite_leaks (s : AllocatorState)
    (rid1 rid2 mission_id : String) (el1 el2 : List EquipmentRequest)
    (t1 t2 : Option String) (hq2 : ∀ r ∈ el2, 0 < r.quantity) :
    lookupAlloc (allocate_resources (allocate_resources s rid1 mission_id
        el1 t1).2 rid2 mission_id el2 t2).2.allocations mission_id =
      some ⟨rid2, mission_id,
        (allocate_resources (allocate_resources s rid1 mission_id el1 t1).2
          rid2 mission_id el2 t2).1.team_id,
        (allocate_resources (allocate_resources s rid1 mission_id el1 t1).2
          rid2 mission_id el2 t2).1.equipment_assigned⟩ ∧
    ∀ name d1,
      findItem (allocate_resources s rid1 mission_id el1 t1).2.inventory
        name = some d1 →
      ∃ d2, findItem (allocate_resources (allocate_resources s rid1
          mission_id el1 t1).2 rid2 mission_id el2 t2).2.inventory name =
          some d2 ∧
        d2.total = d1.total ∧ d1.reserved ≤ d2.reserved := by
  set s1 := (allocate_resources s rid1 mission_id el1 t1).2 with hs1
  obtain ⟨delta2, shorts2, hrun2, hpos2⟩ := allocate_effect el2 hq2
    s1.inventory [] []
  have hinv2 : (allocate_resources s1 rid2 mission_id el2 t2).2.inventory =
      adjust (sumQ delta2) s1.inventory := by
    simp only [allocate_resources]
    rw [hrun2]
  constructor
  · show lookupAlloc (allocate_resources s1 rid2 mission_id el2
        t2).2.allocations mission_id =
      some ⟨rid2, mission_id,
        (allocate_resources s1 rid2 mission_id el2 t2).1.team_id,
        (allocate_resources s1 rid2 mission_id el2 t2).1.equipment_assigned⟩
    simp only [allocate_resources]
    rw [hrun2]
    exact lookupAlloc_insertAlloc _ _ _
  · intro name d1 hd1
    rw [show (allocate_resources (allocate_resources s rid1 mission_id el1
        t1).2 rid2 mission_id el2 t2).2.inventory =
        adjust (sumQ delta2) s1.inventory from hinv2, findItem_adjust]
    rw [show findItem s1.inventory name = some d1 from hd1]
    refine ⟨_, rfl, rfl, ?_⟩
    have hnn : 0 ≤ sumQ delta2 name :=
      sumQ_nonneg delta2 name (fun x hx => le_of_lt (hpos2 x hx))
    dsimp only
    omega

/-- Witness for C5: two allocations for mission M-1 from the initial
state; the record now belongs to the second request and no reservation of
the first was released. -/
theorem C5_overwrite_leaks_witness :
    lookupAlloc (allocate_resources (allocate_resources
        ⟨INITIAL_INVENTORY, [], 0⟩ "REQ-1" "M-1"
        [⟨"stretcher", 3, "required"⟩] none).2 "REQ-2" "M-1"
        [⟨"stretcher", 4, "required"⟩] none).2.allocations "M-1" =
      some ⟨"REQ-2", "M-1",
        (allocate_resources (allocate_resources ⟨INITIAL_INVENTORY, [], 0⟩
          "REQ-1" "M-1" [⟨"stretcher", 3, "required"⟩] none).2 "REQ-2"
          "M-1" [⟨"stretcher", 4, "required"⟩] none).1.team_id,
        (allocate_resources (allocate_resources ⟨INITIAL_INVENTORY, [], 0⟩
          "REQ-1" "M-1" [⟨"stretcher", 3, "required"⟩] none).2 "REQ-2"
          "M-1" [⟨"stretcher", 4, "required"⟩] none).1.equipment_assigned⟩ ∧
    ∀ name d1,
      findItem (allocate_resources ⟨INITIAL_INVENTORY, [], 0⟩ "REQ-1" "M-1"
        [⟨"stretcher", 3, "required"⟩] none).2.inventory name = some d1 →
      ∃ d2, findItem (allocate_resources (allocate_resources
          ⟨INITIAL_INVENTORY, [], 0⟩ "REQ-1" "M-1"
          [⟨"stretcher", 3, "required"⟩] none).2 "REQ-2" "M-1"
          [⟨"stretcher", 4, "required"⟩] none).2.inventory name = some d2 ∧
        d2.total = d1.total ∧ d1.reserved ≤ d2.reserved :=
  C5_overwrite_leaks ⟨INITIAL_INVENTORY, [], 0⟩ "REQ-1" "REQ-2" "M-1"
    [⟨"stretcher", 3, "required"⟩] [⟨"stretcher", 4, "required"⟩] none none
    (by decide)

/-! ## Priority queue
(`src/main_orchestrator/services/priority_queue_service.py`)

The queue is `self.queue_cache`, a list of victim dicts.  Only the fields
that the queue logic inspects are modelled; the `timestamp` ISO string is
embedded as a `Nat` supplied by the caller (ISO-8601 strings of the fixed
format used by the source compare lexicographically exactly as the
instants they denote compare chronologically). -/

/-- Priority level from score, as computed in `add_or_update_victim`. -/
def priority_level_of (score : Int) : String :=
  if score ≥ 9 then "CRITICAL"
  else if score ≥ 7 then "URGENT"
  else if score ≥ 5 then "SERIOUS"
  else if score ≥ 3 then "MINOR"
  else "NON-URGENT"

/-- Color code from score, as computed in `add_or_update_victim`. -/
def color_code_of (score : Int) : String :=
  if score ≥ 9 then "red"
  else if score ≥ 7 then "orange"
  else if score ≥ 5 then "orange"
  else if score ≥ 3 then "yellow"
  else "green"

/-- One `queue_cache` entry (the fields the queue logic reads). -/
structure QueueEntry where
  victim_id : String
  score : Int
  priority_level : String
  timestamp : Nat
  color_code : String
  status : String
deriving Repr, DecidableEq

/-- The sort order `key=lambda x: (-x["score"], x["timestamp"])`: higher
score first, ties broken by earlier timestamp. -/
def queueLe (a b : QueueEntry) : Bool :=
  decide (b.score < a.score) ||
    (a.score == b.score && decide (a.timestamp ≤ b.timestamp))

/-- Replacement `self.queue_cache[existing_idx] = queue_entry` at the
first index whose victim id matches. -/
def replaceById : List QueueEntry → String → QueueEntry → List QueueEntry
  | [], _, _ => []
  | v :: rest, victim_id, entry =>
    if v.victim_id == victim_id then entry :: rest
    else v :: replaceById rest victim_id entry

/-- Embeds `_get_position`: 1-indexed rank of the first entry with the
given victim id, `-1` when absent. -/
def get_position (queue : List QueueEntry) (victim_id : String) : Int :=
  match queue.findIdx? (fun v => v.victim_id == victim_id) with
  | some i => (i : Int) + 1
  | none => -1

/-- Embeds `add_or_update_victim`: build the fresh entry, replace the
existing entry with the same id or append, then sort by
`(-score, timestamp)` (Python's stable `list.sort` is embedded as the
stable `mergeSort`).  Returns the new queue together with the reported
position and queue size. -/
def add_or_update_victim (queue : List QueueEntry) (victim_id : String)
    (score : Int) (now : Nat) : List QueueEntry × Int × Nat :=
  let entry : QueueEntry :=
    ⟨victim_id, score, priority_level_of score, now, color_code_of score,
     "pending"⟩
  let q1 := if queue.any (fun v => v.victim_id == victim_id)
            then replaceById queue victim_id entry
            else queue ++ [entry]
  let q2 := q1.mergeSort queueLe
  (q2, get_position q2 victim_id, q2.length)

/-! ### Queue lemmas -/

theorem queueLe_trans (a b c : QueueEntry) (h1 : queueLe a b = true)
    (h2 : queueLe b c = true) : queueLe a c = true := by
  simp only [queueLe, Bool.or_eq_true, Bool.and_eq_true, decide_eq_true_eq,
    beq_iff_eq] at h1 h2 ⊢
  omega

theorem queueLe_total (a b : QueueEntry) :
    (queueLe a b || queueLe b a) = true := by
  simp only [queueLe, Bool.or_eq_true, Bool.and_eq_true, decide_eq_true_eq,
    beq_iff_eq]
  omega

theorem replaceById_map_id :
    ∀ (q : List QueueEntry) (vid : String) (e : QueueEntry),
      e.victim_id = vid →
      (replaceById q vid e).map QueueEntry.victim_id =
        q.map QueueEntry.victim_id := by
  intro q vid e he
  induction q with
  | nil => rfl
  | cons v rest ih =>
    by_cases h : v.victim_id = vid
    · have hb : (v.victim_id == vid) = true := beq_true_of_eq h
      simp [replaceById, hb, he, h]
    · have hb : (v.victim_id == vid) = false := beq_false_of_ne h
      simp [replaceById, hb, ih]

/-- With distinct ids, the 1-indexed position of the entry at index `i`
is `i + 1`: the `findIdx?` scan with any start offset finds exactly it. -/
theorem findIdx?_self :
    ∀ (q : List QueueEntry),
      (q.map QueueEntry.victim_id).Nodup →
      ∀ (off : Nat) (i : Nat) (hi : i < q.length),
        List.findIdx?
          (fun v => v.victim_id == (q.get ⟨i, hi⟩).victim_id) q off =
          some (off + i) := by
  intro q
  induction q with
  | nil =>
    intro _ _ i hi
    exact absurd hi (by simp)
  | cons v rest ih =>
    intro hn off i hi
    have hn' : (rest.map QueueEntry.victim_id).Nodup := by
      simp only [List.map_cons, List.nodup_cons] at hn
      exact hn.2
    match i with
    | 0 =>
      rw [List.findIdx?_cons]
      simp
    | Nat.succ i =>
      have hi' : i < rest.length := by
        simpa [Nat.succ_lt_succ_iff] using hi
      have hget : ((v :: rest).get ⟨i + 1, hi⟩).victim_id =
          (rest.get ⟨i, hi'⟩).victim_id := by
        rw [List.get_cons_succ]
      have hne : v.victim_id ≠ (rest.get ⟨i, hi'⟩).victim_id := by
        intro hcontra
        simp only [List.map_cons, List.nodup_cons] at hn
        exact hn.1 (hcontra ▸ List.mem_map_of_mem QueueEntry.victim_id
          (rest.get_mem i hi'))
      rw [List.findIdx?_cons]
      rw [hget, if_neg (by simpa using hne)]
      rw [ih hn' (off + 1) i hi']
      congr 1
      omega

theorem get_position_get (q : List QueueEntry)
    (hn : (q.map QueueEntry.victim_id).Nodup) (i : Nat) (hi : i < q.length) :
    get_position q (q.get ⟨i, hi⟩).victim_id = (i : Int) + 1 := by
  unfold get_position
  rw [show q.findIdx? (fun v => v.victim_id == (q.get ⟨i, hi⟩).victim_id) =
    some (0 + i) from findIdx?_self q hn 0 i hi]
  simp

/-! ### Claim C4 -/

/-- Claim C4 (confirmed).  After every upsert the queue is sorted by
`(-score, timestamp)`; among entries with equal score the one with the
strictly earlier timestamp has the strictly smaller 1-indexed position;
and an upsert replaces an existing entry with the same id instead of
adding a duplicate: ids stay distinct, the length is unchanged when the
id already existed, and the id occurs exactly once afterwards.
Hypothesis: the victim ids in the queue are distinct (an invariant of the
service, which only ever inserts through this upsert). -/
theorem C4_queue_upsert (queue : List QueueEntry) (victim_id : String)
    (score : Int) (now : Nat)
    (hn : (queue.map QueueEntry.victim_id).Nodup) :
    ((add_or_update_victim queue victim_id score now).1).Pairwise
      (fun a b => queueLe a b = true) ∧
    (((add_or_update_victim queue victim_id score now).1).map
      QueueEntry.victim_id).Nodup ∧
    (∀ a b, a ∈ (add_or_update_victim queue victim_id score now).1 →
      b ∈ (add_or_update_victim queue victim_id score now).1 →
      a.score = b.score → a.timestamp < b.timestamp →
      get_position (add_or_update_victim queue victim_id score now).1
          a.victim_id <
        get_position (add_or_update_victim queue victim_id score now).1
          b.victim_id) ∧
    (queue.any (fun v => v.victim_id == victim_id) = true →
      (add_or_update_victim queue victim_id score now).1.length =
        queue.length) ∧
    (((add_or_update_victim queue victim_id score now).1).map
        QueueEntry.victim_id).count victim_id = 1 := by
  set entry : QueueEntry :=
    ⟨victim_id, score, priority_level_of score, now, color_code_of score,
     "pending"⟩ with hentry
  set q1 := if queue.any (fun v => v.victim_id == victim_id)
            then replaceById queue victim_id entry
            else queue ++ [entry] with hq1
  have hmain : (add_or_update_victim queue victim_id score now).1 =
      q1.mergeSort queueLe := rfl
  have hperm : (q1.mergeSort queueLe).Perm q1 :=
    List.mergeSort_perm q1 queueLe
  have hidsperm : ((q1.mergeSort queueLe).map QueueEntry.victim_id).Perm
      (q1.map QueueEntry.victim_id) := hperm.map _
  have hids1 : (q1.map QueueEntry.victim_id).Nodup ∧
      victim_id ∈ q1.map QueueEntry.victim_id := by
    rw [hq1]
    by_cases hany : queue.any (fun v => v.victim_id == victim_id) = true
    · rw [if_pos hany]
      rw [replaceById_map_id queue victim_id entry rfl]
      refine ⟨hn, ?_⟩
      obtain ⟨v, hv, hvb⟩ := List.any_eq_true.mp hany
      have : v.victim_id = victim_id := by simpa using hvb
      exact this ▸ List.mem_map_of_mem QueueEntry.victim_id hv
    · rw [if_neg hany]
      have hnotmem : victim_id ∉ queue.map QueueEntry.victim_id := by
        intro hmem
        obtain ⟨v, hv, hvid⟩ := List.mem_map.mp hmem
        exact hany (List.any_eq_true.mpr ⟨v, hv, beq_true_of_eq hvid⟩)
      constructor
      · have hmapapp : (queue ++ [entry]).map QueueEntry.victim_id =
            queue.map QueueEntry.victim_id ++ [victim_id] := by simp
        rw [hmapapp]
        refine ((List.perm_append_singleton _ _).nodup_iff).mpr ?_
        exact List.nodup_cons.mpr ⟨hnotmem, hn⟩
      · simp
  have hnodup2 : ((q1.mergeSort queueLe).map QueueEntry.victim_id).Nodup :=
    (hidsperm.nodup_iff).mpr hids1.1
  refine ⟨?_, ?_, ?_, ?_, ?_⟩
  · rw [hmain]
    exact @List.sorted_mergeSort QueueEntry queueLe
      (fun a b c => queueLe_trans a b c) queueLe_total q1
  · rw [hmain]; exact hnodup2
  · rw [hmain]
    intro a b ha hb hscore hts
    have hsorted := @List.sorted_mergeSort QueueEntry queueLe
      (fun a b c => queueLe_trans a b c) queueLe_total q1
    obtain ⟨⟨i, hi⟩, ha'⟩ := List.mem_iff_get.mp ha
    obtain ⟨⟨j, hj⟩, hb'⟩ := List.mem_iff_get.mp hb
    have hij : i < j := by
      rcases Nat.lt_trichotomy i j with h | h | h
      · exact h
      · exfalso
        have hab : a = b := by
          rw [← ha', ← hb']
          congr 1
          exact Fin.ext h
        rw [hab] at hts
        omega
      · exfalso
        have := (List.pairwise_iff_get.mp hsorted) ⟨j, hj⟩ ⟨i, hi⟩ h
        rw [ha', hb'] at this
        simp only [queueLe, Bool.or_eq_true, Bool.and_eq_true,
          decide_eq_true_eq, beq_iff_eq] at this
        omega
    have hpa := get_position_get (q1.mergeSort queueLe) hnodup2 i hi
    have hpb := get_position_get (q1.mergeSort queueLe) hnodup2 j hj
    rw [ha'] at hpa
    rw [hb'] at hpb
    rw [hpa, hpb]
    omega
  · rw [hmain]
    intro hany
    rw [hperm.length_eq, hq1, if_pos hany]
    -- replacement preserves length: its id list is unchanged
    have := congrArg List.length
      (replaceById_map_id queue victim_id entry rfl)
    simpa using this
  · rw [hmain]
    rw [hidsperm.count_eq]
    exact List.count_eq_one_of_mem hids1.1 hids1.2

/-- Witness for C4: upsert of victim V2 with score 87 into a queue where
V1 already has score 87 and an earlier timestamp; all five conjuncts are
delivered by the theorem at this concrete input. -/
theorem C4_queue_upsert_witness :
    ((add_or_update_victim
        [⟨"V1", 87, "CRITICAL", 1, "red", "pending"⟩] "V2" 87 2).1).Pairwise
      (fun a b => queueLe a b = true) ∧
    (((add_or_update_victim
        [⟨"V1", 87, "CRITICAL", 1, "red", "pending"⟩] "V2" 87 2).1).map
      QueueEntry.victim_id).Nodup ∧
    (∀ a b, a ∈ (add_or_update_victim
        [⟨"V1", 87, "CRITICAL", 1, "red", "pending"⟩] "V2" 87 2).1 →
      b ∈ (add_or_update_victim
        [⟨"V1", 87, "CRITICAL", 1, "red", "pending"⟩] "V2" 87 2).1 →
      a.score = b.score → a.timestamp < b.timestamp →
      get_position (add_or_update_victim
          [⟨"V1", 87, "CRITICAL", 1, "red", "pending"⟩] "V2" 87 2).1
          a.victim_id <
        get_position (add_or_update_victim
          [⟨"V1", 87, "CRITICAL", 1, "red", "pending"⟩] "V2" 87 2).1
          b.victim_id) ∧
    (([⟨"V1", 87, "CRITICAL", 1, "red", "pending"⟩] :
        List QueueEntry).any (fun v => v.victim_id == "V2") = true →
      (add_or_update_victim
        [⟨"V1", 87, "CRITICAL", 1, "red", "pending"⟩] "V2" 87 2).1.length =
        ([⟨"V1", 87, "CRITICAL", 1, "red", "pending"⟩] :
          List QueueEntry).length) ∧
    (((add_or_update_victim
        [⟨"V1", 87, "CRITICAL", 1, "red", "pending"⟩] "V2" 87 2).1).map
        QueueEntry.victim_id).count "V2" = 1 :=
  C4_queue_upsert [⟨"V1", 87, "CRITICAL", 1, "red", "pending"⟩] "V2" 87 2
    (by decide)

/-! ## Team dispatcher (`src/rescue_agent/team_tools.py`)

The registry is the dict `_teams`, embedded as a list of `Team` records
(entries carry their own `team_id`, as in the source).  Coordinates are
embedded as rationals; the `last_update` / `vehicle` fields are plumbing
and are not modelled. -/

/-- Team operational status.  `update_team_status` validates the string
against exactly these four values, so the invalid-status error branch is
absorbed by the type. -/
inductive TeamStatus where
  | available
  | en_route
  | on_scene
  | returning
deriving Repr, DecidableEq

/-- One `_teams` entry (the fields the dispatch logic reads). -/
structure Team where
  team_id : String
  name : String
  personnel : Nat
  status : TeamStatus
  lat : ℚ
  lng : ℚ
  assigned_to : Option String
  eta_minutes : Option Int
  equipment : List String
deriving Repr, DecidableEq

/-- The initial `_teams` registry from `team_tools.py`. -/
def initial_teams : List Team :=
  [⟨"T-Alpha", "Alpha Response Unit", 6, .available, 13.7400, 100.5200,
    none, none,
    ["hydraulic_cutter", "airbag_lifter", "stretcher", "first_aid_kit"]⟩,
   ⟨"T-Bravo", "Bravo Medical Team", 4, .available, 13.7350, 100.5150,
    none, none,
    ["defibrillator", "oxygen_tank", "stretcher", "first_aid_kit",
     "iv_kit"]⟩,
   ⟨"T-Charlie", "Charlie SAR Team", 8, .available, 13.7450, 100.5250,
    none, none,
    ["life_vest", "rescue_boat", "rope", "thermal_blanket",
     "first_aid_kit"]⟩,
   ⟨"T-Delta", "Delta Fire Response", 5, .available, 13.7500, 100.5100,
    none, none,
    ["fire_extinguisher", "breathing_apparatus", "thermal_camera",
     "hose"]⟩]

/-- Dict lookup `_teams[team_id]`. -/
def findTeam (teams : List Team) (team_id : String) : Option Team :=
  teams.find? (fun t => t.team_id == team_id)

/-- Result of `assign_team_to_victim`: team unknown, team busy (carrying
its `current_assignment`), or dispatched (carrying the stored ETA). -/
inductive AssignResult where
  | notFoundError
  | notAvailable (current_assignment : Option String)
  | ok (eta_minutes : Option Int)
deriving Repr, DecidableEq

/-- Embeds `assign_team_to_victim`.  The ETA the source stores is
`_estimate_eta(_calculate_distance(team, victim))` when a victim location
is given, `None` otherwise; that arithmetic pipeline is embedded
separately as `estimate_eta` below and its result enters here as the
precomputed argument `eta`. -/
def assign_team_to_victim (teams : List Team) (team_id victim_id : String)
    (eta : Option Int) : AssignResult × List Team :=
  match findTeam teams team_id with
  | none => (.notFoundError, teams)
  | some team =>
    if team.status ≠ .available then
      (.notAvailable team.assigned_to, teams)
    else
      (.ok eta,
       teams.map (fun t => if t.team_id == team_id then
         { t with status := .en_route, assigned_to := some victim_id,
                  eta_minutes := eta }
       else t))

/-- Embeds `update_team_status`: sets the status; clears the assignment
and ETA when the new status is `available`; forces the ETA to `0` when it
is `on_scene`.  The returned flag is the success/error marker. -/
def update_team_status (teams : List Team) (team_id : String)
    (status : TeamStatus) : Bool × List Team :=
  match findTeam teams team_id with
  | none => (false, teams)
  | some _ =>
    (true,
     teams.map (fun t => if t.team_id == team_id then
       let t1 := { t with status := status }
       let t2 := if status = .available then
           { t1 with assigned_to := none, eta_minutes := none }
         else t1
       if status = .on_scene then { t2 with eta_minutes := some 0 } else t2
     else t))

/-- Embeds `release_team`: back to `available`, assignment and ETA
cleared; returns the previous assignment (`none` embeds the team-not-found
error). -/
def release_team (teams : List Team) (team_id : String) :
    Option (Option String) × List Team :=
  match findTeam teams team_id with
  | none => (none, teams)
  | some team =>
    (some team.assigned_to,
     teams.map (fun t => if t.team_id == team_id then
       { t with status := .available, assigned_to := none,
                eta_minutes := none }
     else t))

/-- Embeds `update_team_location`: overwrites the coordinates only. -/
def update_team_location (teams : List Team) (team_id : String)
    (latitude longitude : ℚ) : Bool × List Team :=
  match findTeam teams team_id with
  | none => (false, teams)
  | some _ =>
    (true,
     teams.map (fun t => if t.team_id == team_id then
       { t with lat := latitude, lng := longitude }
     else t))

/-- One external team-registry call, for properties of call sequences. -/
inductive TeamOp where
  | assign (team_id victim_id : String) (eta : Option Int)
  | updateStatus (team_id : String) (status : TeamStatus)
  | release (team_id : String)
  | updateLocation (team_id : String) (lat lng : ℚ)

/-- State effect of one team-registry call. -/
def applyTeamOp (teams : List Team) : TeamOp → List Team
  | .assign tid vid eta => (assign_team_to_victim teams tid vid eta).2
  | .updateStatus tid st => (update_team_status teams tid st).2
  | .release tid => (release_team teams tid).2
  | .updateLocation tid la ln => (update_team_location teams tid la ln).2

/-- State effect of a sequence of team-registry calls. -/
def runTeamOps (teams : List Team) (ops : List TeamOp) : List Team :=
  ops.foldl applyTeamOp teams

/-- The direction of the claimed invariant that the code maintains: an
`available` team carries no assignment and no ETA. -/
def teamWf (teams : List Team) : Prop :=
  ∀ t ∈ teams, t.status = .available →
    t.assigned_to = none ∧ t.eta_minutes = none

instance (teams : List Team) : Decidable (teamWf teams) := by
  unfold teamWf; infer_instance

/-! ### Claim C8 -/

theorem teamWf_applyTeamOp (teams : List Team) (op : TeamOp)
    (hw : teamWf teams) : teamWf (applyTeamOp teams op) := by
  cases op with
  | assign tid vid eta =>
    dsimp only [applyTeamOp, assign_team_to_victim]
    cases hf : findTeam teams tid with
    | none => exact hw
    | some team =>
      by_cases hst : team.status = TeamStatus.available
      · simp only [hst, ne_eq, not_true_eq_false, if_false]
        intro t ht
        obtain ⟨q, hq, rfl⟩ := List.mem_map.mp ht
        by_cases hid : (q.team_id == tid) = true
        · simp [hid]
        · simp only [hid, Bool.false_eq_true, if_false]
          exact hw q hq
      · simp only [hst, ne_eq, not_false_eq_true, if_true]
        exact hw
  | updateStatus tid st =>
    dsimp only [applyTeamOp, update_team_status]
    cases hf : findTeam teams tid with
    | none => exact hw
    | some team =>
      intro t ht
      obtain ⟨q, hq, rfl⟩ := List.mem_map.mp ht
      by_cases hid : (q.team_id == tid) = true
      · simp only [hid, if_true]
        cases st <;> simp
      · simp only [hid, Bool.false_eq_true, if_false]
        exact hw q hq
  | release tid =>
    dsimp only [applyTeamOp, release_team]
    cases hf : findTeam teams tid with
    | none => exact hw
    | some team =>
      intro t ht
      obtain ⟨q, hq, rfl⟩ := List.mem_map.mp ht
      by_cases hid : (q.team_id == tid) = true
      · simp [hid]
      · simp only [hid, Bool.false_eq_true, if_false]
        exact hw q hq
  | updateLocation tid la ln =>
    dsimp only [applyTeamOp, update_team_location]
    cases hf : findTeam teams tid with
    | none => exact hw
    | some team =>
      intro t ht
      obtain ⟨q, hq, rfl⟩ := List.mem_map.mp ht
      by_cases hid : (q.team_id == tid) = true
      · simp only [hid, if_true]
        intro hstat
        have := hw q hq (by simpa using hstat)
        simpa using this
      · simp only [hid, Bool.false_eq_true, if_false]
        exact hw q hq

/-- Claim C8, as stated, is false: `update_team_status` can move a team
from `available` straight to `en_route` without recording any assignment,
so after that single call from the initial registry the team T-Alpha has
`status ≠ available` with `assigned_to = None`, breaking the claimed
"non-null iff not available" equivalence. -/
theorem C8_counterexample :
    ¬ ∀ t ∈ runTeamOps initial_teams
        [TeamOp.updateStatus "T-Alpha" TeamStatus.en_route],
      (t.assigned_to ≠ none ↔ t.status ≠ TeamStatus.available) := by
  decide

/-- Claim C8 (amended: only one direction of the equivalence holds).
After every sequence of assign, status-update, release and location
update calls from a state where every available team has no assignment
and no ETA, it remains true that `status = available → assigned_to =
none` (equivalently, `assigned_to ≠ none → status ≠ available`); and
`assign_team_to_victim` succeeds only when the team's status is
`available`. -/
theorem C8_team_invariant (teams : List Team) (ops : List TeamOp)
    (hw : teamWf teams) :
    teamWf (runTeamOps teams ops) ∧
    (∀ t ∈ runTeamOps teams ops, t.assigned_to ≠ none →
      t.status ≠ TeamStatus.available) ∧
    (∀ tid vid eta e,
      (assign_team_to_victim teams tid vid eta).1 = .ok e →
      ∃ team, findTeam teams tid = some team ∧
        team.status = TeamStatus.available) := by
  have hrun : teamWf (runTeamOps teams ops) := by
    induction ops generalizing teams with
    | nil => exact hw
    | cons op rest ih =>
      exact ih (applyTeamOp teams op) (teamWf_applyTeamOp teams op hw)
  refine ⟨hrun, ?_, ?_⟩
  · intro t ht hassigned hstat
    exact hassigned (hrun t ht hstat).1
  · intro tid vid eta e hok
    cases hf : findTeam teams tid with
    | none =>
      rw [show (assign_team_to_victim teams tid vid eta).1 =
        AssignResult.notFoundError by
          simp [assign_team_to_victim, hf]] at hok
      cases hok
    | some team =>
      by_cases hst : team.status = TeamStatus.available
      · exact ⟨team, rfl, hst⟩
      · rw [show (assign_team_to_victim teams tid vid eta).1 =
          AssignResult.notAvailable team.assigned_to by
            simp [assign_team_to_victim, hf, hst]] at hok
        cases hok

/-- Witness for C8: the amended theorem evaluated on the initial registry
and the call sequence assign T-Alpha, mark it on-scene, release it. -/
theorem C8_team_invariant_witness :
    teamWf (runTeamOps initial_teams
      [TeamOp.assign "T-Alpha" "V1" (some 5),
       TeamOp.updateStatus "T-Alpha" TeamStatus.on_scene,
       TeamOp.release "T-Alpha"]) ∧
    (∀ t ∈ runTeamOps initial_teams
        [TeamOp.assign "T-Alpha" "V1" (some 5),
         TeamOp.updateStatus "T-Alpha" TeamStatus.on_scene,
         TeamOp.release "T-Alpha"],
      t.assigned_to ≠ none → t.status ≠ TeamStatus.available) ∧
    (∀ tid vid eta e,
      (assign_team_to_victim initial_teams tid vid eta).1 = .ok e →
      ∃ team, findTeam initial_teams tid = some team ∧
        team.status = TeamStatus.available) :=
  C8_team_invariant initial_teams
    [TeamOp.assign "T-Alpha" "V1" (some 5),
     TeamOp.updateStatus "T-Alpha" TeamStatus.on_scene,
     TeamOp.release "T-Alpha"] (by decide)

/-! ## ETA estimation (`_estimate_eta` in `team_tools.py`)

The source computes the haversine great-circle distance with
`math.sin`/`math.cos`/`math.atan2` over floats and feeds it to
`_estimate_eta`.  The transcendental distance computation is not
embeddable in exact arithmetic; the ETA arithmetic itself is embedded
exactly over `ℚ`, taking the distance as its input, which is exactly the
signature of `_estimate_eta(distance_km)`. -/

/-- Python `int()` truncation toward zero, on rationals. -/
def pyInt (q : ℚ) : Int := if 0 ≤ q then ⌊q⌋ else ⌈q⌉

/-- Embeds `_estimate_eta`: minutes at 40 km/h, plus a 20% traffic/
obstacle buffer, truncated by `int()`, minimum 1 minute. -/
def estimate_eta (distance_km : ℚ) : Int :=
  let avg_speed_kmh : ℚ := 40
  let base_time := distance_km / avg_speed_kmh * 60
  let buffer := base_time * 0.2
  max 1 (pyInt (base_time + buffer))

/-- Modelled from the spec's words, for comparison with the code: the
same formula but rounded UP to a whole minute ("rounded up, minimum 1
minute"). -/
def estimate_eta_spec (distance_km : ℚ) : Int :=
  max 1 ⌈distance_km / 40 * 60 * 1.2⌉

/-! ### Claim C9 -/

/-- Claim C9, as stated, is false: `_estimate_eta` truncates with
`int(...)` instead of rounding up.  At distance 2.5 km the buffered
travel time is 4.5 minutes; the code returns 4, the claimed rounding-up
formula gives 5. -/
theorem C9_counterexample :
    estimate_eta (5/2) = 4 ∧ estimate_eta_spec (5/2) = 5 ∧
    estimate_eta (5/2) ≠ estimate_eta_spec (5/2) := by
  have hfloor : ⌊((5:ℚ)/2 / 40 * 60 + (5:ℚ)/2 / 40 * 60 * 0.2)⌋ = 4 := by
    norm_num
  have hceil : ⌈((5:ℚ)/2 / 40 * 60 * 1.2)⌉ = 5 := by
    rw [Int.ceil_eq_iff]
    norm_num
  have h1 : estimate_eta (5/2) = 4 := by
    simp only [estimate_eta, pyInt]
    rw [if_pos (by norm_num), hfloor]
    norm_num
  have h2 : estimate_eta_spec (5/2) = 5 := by
    simp only [estimate_eta_spec]
    rw [hceil]
    norm_num
  exact ⟨h1, h2, by rw [h1, h2]; norm_num⟩

/-- Claim C9 (amended: truncation instead of rounding up).  For every
nonnegative distance, the ETA equals the distance divided by the 40 km/h
baseline speed, increased by the 20% traffic buffer (i.e. multiplied by
9/5 when expressed in minutes), truncated toward zero to a whole minute,
with a minimum of 1 minute; in particular the result is always at least
1. -/
theorem C9_eta_formula (d : ℚ) (hd : 0 ≤ d) :
    estimate_eta d = max 1 ⌊d * (9/5)⌋ ∧ 1 ≤ estimate_eta d := by
  have harith : d / 40 * 60 + d / 40 * 60 * 0.2 = d * (9/5) := by
    norm_num
    ring
  have hnn : (0:ℚ) ≤ d * (9/5) := by positivity
  have hmain : estimate_eta d = max 1 ⌊d * (9/5)⌋ := by
    simp only [estimate_eta, pyInt]
    rw [harith, if_pos hnn]
  exact ⟨hmain, hmain ▸ le_max_left _ _⟩

/-- Witness for C9: the amended formula evaluated at distance 2.5 km
(result 4 minutes). -/
theorem C9_eta_formula_witness :
    estimate_eta (5/2) = max 1 ⌊(5/2 : ℚ) * (9/5)⌋ ∧
    1 ≤ estimate_eta (5/2) :=
  C9_eta_formula (5/2) (by norm_num)

end DisasterAgent
